import Mathlib

/-!
Verification development for the target-resolution and authorization engine
of `salt/utils/minions.py` (module-level helpers and the `CkMinions` class).

The Python source is shallowly embedded below.  External collaborators that
are imported by the module but whose code is not part of it (the `re` module,
`fnmatch`, `ipaddress`/`salt.utils.network`, `salt.cache`, `salt.roster`,
`salt.utils.data.subdict_match`, `seco.range`) are modelled as function
fields of an explicit state record `St`; everything that lives in
`minions.py` itself is translated function by function.
-/

set_option maxRecDepth 4000

namespace Salt

/-- `MatchResult`: the `{'minions': [...], 'missing': [...]}` dictionaries the
matchers return.  `minions` is the resolved identifier list, `missing` the
explicitly requested but unknown identifiers. -/
structure MatchResult where
  minions : List String
  missing : List String
deriving Repr, DecidableEq

/-! Python `set` values are modelled as duplicate-free lists: `set(l)` is
`l.dedup`, `list(s)` is the identity, and the set operators are list
filters.  Only membership matters to the claims; the orders below are the
deterministic choices of the embedding. -/

/-- `set(l)`. -/
def pySet (l : List String) : List String := l.dedup

/-- Set union `a | b`. -/
def pyUnion (a b : List String) : List String :=
  a ++ b.filter (fun x => x ∉ a)

/-- Set intersection `a & b`. -/
def pyInter (a b : List String) : List String :=
  a.filter (fun x => x ∈ b)

/-- Set difference `a - b`. -/
def pyDiff (a b : List String) : List String :=
  a.filter (fun x => x ∉ b)

/-- `s.remove(x)` / `s.discard(x)`. -/
def pyRemove (a : List String) (x : String) : List String :=
  a.filter (fun y => y ≠ x)

/-- The `groupdict()` of `TARGET_REX` as returned by `parse_target`:
`engine`/`delimiter` are `None` when the corresponding group did not match. -/
structure TargetInfo where
  engine : Option Char
  delimiter : Option Char
  pattern : String
deriving Repr, DecidableEq

/-- The engine letters of `TARGET_REX`: `G|P|I|J|L|N|S|E|R`. -/
def engineChars : List Char := ['G', 'P', 'I', 'J', 'L', 'N', 'S', 'E', 'R']

/-- The engines after which `TARGET_REX` accepts a one-character delimiter
(the `(?<=G|P|I|J)` lookbehind). -/
def delimEngines : List Char := ['G', 'P', 'I', 'J']

/-- Semantics of the trailing `(?P<pattern>.+)$` of `TARGET_REX` on the
remaining characters: `.` matches anything except a newline and `$` matches
at the end of the input or just before a single final newline.  Returns the
matched pattern characters, or `none` when the group cannot match. -/
def patMatch (cs : List Char) : Option (List Char) :=
  let a := cs.takeWhile (fun ch => ch ≠ '\n')
  let b := cs.dropWhile (fun ch => ch ≠ '\n')
  if a ≠ [] ∧ (b = [] ∨ b = ['\n']) then some a else none

/-- The branch of `TARGET_REX` in which the optional delimiter group is
empty: `<ENGINE>@<pattern>`.  Falls back to `fallback` (the engine-less
match of the whole input) when it does not apply. -/
def parseNoDelim (cs : List Char) (fallback : TargetInfo) : TargetInfo :=
  match cs with
  | c :: '@' :: p =>
    if c ∈ engineChars then
      match patMatch p with
      | some a => ⟨some c, none, String.mk a⟩
      | none => fallback
    else fallback
  | _ => fallback

/-- The engine-less match of `TARGET_REX` against the whole input, and the
warning dictionary `{engine: None, delimiter: None, pattern: input}` when
the regex does not match at all. -/
def parseFallback (target_expression : String) : TargetInfo :=
  match patMatch target_expression.data with
  | some a => ⟨none, none, String.mk a⟩
  | none => ⟨none, none, target_expression⟩

/-- `parse_target`: split a target expression into engine, delimiter and
pattern using `TARGET_REX` (with the regex's greedy/backtracking behaviour:
the one-character delimiter is tried first for G/P/I/J engines).  When the
regex does not match at all, the function logs a warning and returns the
dictionary `{engine: None, delimiter: None, pattern: target_expression}`. -/
def parse_target (target_expression : String) : TargetInfo :=
  match target_expression.data with
  | c :: d :: '@' :: p =>
    if c ∈ delimEngines ∧ d ≠ '\n' then
      match patMatch p with
      | some a => ⟨some c, some d, String.mk a⟩
      | none => parseNoDelim target_expression.data (parseFallback target_expression)
    else parseNoDelim target_expression.data (parseFallback target_expression)
  | _ => parseNoDelim target_expression.data (parseFallback target_expression)

/-! ### The `re` collaborator

Python's `re` module is an external library; we embed the *matching*
semantics (Brzozowski derivatives over an abstract syntax of regular
expressions), while compilation of a pattern string to a regex is a
collaborator function carried by the state.  `re.match` returns a truthy
match object exactly when some (possibly empty) prefix of the subject is in
the language of the pattern — it is anchored at position 0 but does not have
to consume the whole subject. -/

/-- Abstract syntax of the regular expressions the embedding manipulates. -/
inductive Regex where
  | fail : Regex
  | eps : Regex
  | ch : Char → Regex
  | alt : Regex → Regex → Regex
  | cat : Regex → Regex → Regex
  | star : Regex → Regex
deriving Repr, DecidableEq

/-- Does the language of `r` contain the empty string? -/
def Regex.nullable : Regex → Bool
  | .fail => false
  | .eps => true
  | .ch _ => false
  | .alt r1 r2 => r1.nullable || r2.nullable
  | .cat r1 r2 => r1.nullable && r2.nullable
  | .star _ => true

/-- Brzozowski derivative of `r` with respect to the character `c`. -/
def Regex.deriv : Regex → Char → Regex
  | .fail, _ => .fail
  | .eps, _ => .fail
  | .ch c, d => if c = d then .eps else .fail
  | .alt r1 r2, d => .alt (r1.deriv d) (r2.deriv d)
  | .cat r1 r2, d =>
    if r1.nullable then .alt (.cat (r1.deriv d) r2) (r2.deriv d)
    else .cat (r1.deriv d) r2
  | .star r, d => .cat (r.deriv d) (.star r)

/-- Whole-string acceptance: `cs` is in the language of `r`. -/
def Regex.acceptsAll (r : Regex) (cs : List Char) : Bool :=
  (cs.foldl Regex.deriv r).nullable

/-- Truthiness of `re.match(r, s)`: some (possibly empty) prefix of `s` is
in the language of `r` (anchored at position 0, not a full match). -/
def rmatch (r : Regex) : List Char → Bool
  | [] => r.nullable
  | c :: cs => r.nullable || rmatch (r.deriv c) cs

/-- A literal (metacharacter-free) pattern as a regex. -/
def Regex.ofLit (s : String) : Regex :=
  s.data.foldr (fun c acc => Regex.cat (Regex.ch c) acc) Regex.eps

/-! ### `nodegroup_comp` -/

/-- A nodegroup definition: a whitespace-separated string of tokens, an
explicit token sequence, or any other value (which `nodegroup_comp` rejects
with "neither a string, list nor tuple"). -/
inductive NgDef where
  | str : String → NgDef
  | toks : List String → NgDef
  | bad : NgDef
deriving Repr, DecidableEq

/-- The compound operators recognised by `nodegroup_comp` and
`_check_compound_minions`. -/
def opers : List String := ["and", "or", "not", "(", ")"]

/-- Worker for `splitWs`: `acc` holds the reversed characters of the word
being read. -/
def splitWsAux : List Char → List Char → List String
  | [], acc => if acc = [] then [] else [String.mk acc.reverse]
  | c :: cs, acc =>
    if c.isWhitespace then
      if acc = [] then splitWsAux cs []
      else String.mk acc.reverse :: splitWsAux cs []
    else splitWsAux cs (c :: acc)

/-- Python `str.split()` with no argument: split on whitespace runs and drop
empty fields. -/
def splitWs (s : String) : List String :=
  splitWsAux s.data []

/-- `len(word) >= 3 and word.startswith('N@')`: a token that triggers nested
nodegroup expansion. -/
def isNgWord (w : String) : Bool :=
  match w.data with
  | c1 :: c2 :: _ :: _ => c1 = 'N' && c2 = '@'
  | _ => false

/-- Is `n` a prefix of `h` (character lists)? -/
def listPre : List Char → List Char → Bool
  | [], _ => true
  | _ :: _, [] => false
  | a :: xs, b :: ys => a = b && listPre xs ys

/-- Python's `y in x` substring test on character lists. -/
def listSub (n : List Char) : List Char → Bool
  | [] => listPre n []
  | c :: t => listPre n (c :: t) || listSub n (t)

/-- `group_type_re = re.compile('^[A-Z]@')` applied with `.match` (anchored
at position 0). -/
def groupTypeMatch (w : String) : Bool :=
  match w.data with
  | c :: '@' :: _ => 'A' ≤ c && c ≤ 'Z'
  | _ => false

/-- `regex_chars = ['(', '[', '{', '\\', '?''}])']` — note the implicit
Python string-literal concatenation making the last element the four-character
string `?}])`. -/
def regexChars : List (List Char) :=
  [['('], ['['], ['\x7b'], ['\\'], ['?', '\x7d', ']', ')']]

/-- Does a token contain one of the characters that make `nodegroup_comp`
re-synthesize an `E@` expression instead of an `L@` list? -/
def hasRegexChars (w : String) : Bool :=
  regexChars.any (fun y => listSub y w.data)

/-- The backwards-compatibility branch of `nodegroup_comp` for a top-level
expansion in which no nested nodegroup was found: a flat token list with no
compound operators, no wildcards and no `X@` engine prefixes is re-joined
into a single `E@tok1,tok2,..` or `L@tok1,tok2,..` token. -/
def ngCompat (words : List String) : List String :=
  if words.all (fun w => w ∉ opers) then
    if words.all (fun w => !(listSub ['*'] w.data) && !(groupTypeMatch w)) then
      if words.any hasRegexChars then
        [String.mk ('E' :: '@' :: (String.intercalate "," words).data)]
      else
        [String.mk ('L' :: '@' :: (String.intercalate "," words).data)]
    else words
  else words

/-- Names bound in a nodegroups mapping. -/
def ngNames (nodegroups : List (String × NgDef)) : Finset String :=
  (nodegroups.map Prod.fst).toFinset

/-- Dictionary lookup `nodegroups[nodegroup]`. -/
def ngLookup (nodegroups : List (String × NgDef)) (n : String) : Option NgDef :=
  (nodegroups.find? (fun p => p.1 = n)).map Prod.snd

theorem ngLookup_mem_names {nodegroups : List (String × NgDef)} {n : String}
    {d : NgDef} (h : ngLookup nodegroups n = some d) : n ∈ ngNames nodegroups := by
  unfold ngLookup at h
  rcases ho : nodegroups.find? (fun p => decide (p.1 = n)) with _ | p
  · rw [ho] at h; simp at h
  · have hp := List.find?_some ho
    have hm := List.mem_of_find?_eq_some ho
    simp at hp
    subst hp
    unfold ngNames
    simp
    exact ⟨p.2, hm⟩

/-- The tokenisation of a nodegroup's definition (`words` in the source):
a string definition is whitespace-split, a sequence is used as-is. -/
def ngTokens (nodegroups : List (String × NgDef)) (nodegroup : String) : List String :=
  match (ngLookup nodegroups nodegroup).getD NgDef.bad with
  | NgDef.str s => splitWs s
  | NgDef.toks l => l
  | NgDef.bad => []

/-- `if ret: ret.insert(0, '('); ret.append(')')` — wrap a non-empty
expansion in a parenthesised group. -/
def ngParenWrap (l : List String) : List String :=
  if l = [] then l else "(" :: (l ++ [")"])

/-- `nodegroup_comp(nodegroup, nodegroups, skip, first_call)`: recursively
expand a nodegroup, skipping names already being expanded on the call chain
(cycle guard), unknown names, and non-string/non-sequence definitions (all
return the empty expansion, modelling Python's falsy `''`).  The word loop is
a pure flat-map: operators and plain words are kept, `N@name` words (length
at least 3) are replaced by the recursive expansion with the current name
added to `skip`.  A non-empty result is wrapped in parentheses; a top-level
call that expanded no nested group instead runs the backwards-compatibility
re-synthesis `ngCompat` on the raw token list. -/
def nodegroup_comp (nodegroup : String) (nodegroups : List (String × NgDef))
    (skip : Finset String) (first_call : Bool) : List String :=
  if hskip : nodegroup ∈ skip then []
  else if hmem : nodegroup ∉ ngNames nodegroups then []
  else if (ngLookup nodegroups nodegroup).getD NgDef.bad = NgDef.bad then []
  else if (ngTokens nodegroups nodegroup).any isNgWord || !first_call then
    ngParenWrap ((ngTokens nodegroups nodegroup).flatMap (fun w =>
      if w ∈ opers then [w]
      else if isNgWord w then
        nodegroup_comp (w.drop 2) nodegroups (insert nodegroup skip) false
      else [w]))
  else ngCompat (ngTokens nodegroups nodegroup)
termination_by ((ngNames nodegroups) \ skip).card
decreasing_by
  have hsd : ngNames nodegroups \ insert nodegroup skip
      = (ngNames nodegroups \ skip).erase nodegroup := by
    ext a
    simp [Finset.mem_sdiff, Finset.mem_insert, Finset.mem_erase]
    tauto
  rw [hsd]
  exact Finset.card_erase_lt_of_mem
    (Finset.mem_sdiff.mpr ⟨not_not.mp hmem, hskip⟩)

theorem isNgWord_of_oper {w : String} (h : w ∈ opers) : isNgWord w = false := by
  simp [opers] at h
  rcases h with h | h | h | h | h <;> subst h <;> decide

theorem isNgWord_tag (c : Char) (d : Char) (l : List Char) (hc : c ≠ 'N') :
    isNgWord (String.mk (c :: d :: l)) = false := by
  cases l <;> simp [isNgWord, hc]

theorem ngCompat_no_ngword {words : List String}
    (hw : words.any isNgWord = false) :
    ∀ w ∈ ngCompat words, isNgWord w = false := by
  intro w hmem
  have hall : ∀ x ∈ words, isNgWord x = false := by
    intro x hx
    have := List.any_eq_false.mp hw x hx
    simpa using this
  unfold ngCompat at hmem
  split at hmem
  · split at hmem
    · split at hmem
      · simp at hmem
        subst hmem
        exact isNgWord_tag _ _ _ (by decide)
      · simp at hmem
        subst hmem
        exact isNgWord_tag _ _ _ (by decide)
    · exact hall w hmem
  · exact hall w hmem

theorem mem_ngParenWrap {w : String} {l : List String}
    (h : w ∈ ngParenWrap l) : w = "(" ∨ w ∈ l ∨ w = ")" := by
  unfold ngParenWrap at h
  split at h
  · exact Or.inr (Or.inl h)
  · rcases List.mem_cons.mp h with h | h
    · exact Or.inl h
    · rcases List.mem_append.mp h with h | h
      · exact Or.inr (Or.inl h)
      · simp at h; exact Or.inr (Or.inr h)

/-- No token produced by `nodegroup_comp` is itself an expandable `N@name`
token: nested groups are expanded away, kept leaf words failed the `N@` test,
and the re-synthesized compat tokens start with `E@`/`L@`.  (This is what
makes the in-place splice in `_check_compound_minions` terminate.) -/
theorem nodegroup_comp_no_ngword :
    ∀ (ng : String) (ngs : List (String × NgDef)) (skip : Finset String)
      (fc : Bool) (w : String),
      w ∈ nodegroup_comp ng ngs skip fc → isNgWord w = false := by
  intro ng ngs skip fc
  induction ng, ngs, skip, fc using nodegroup_comp.induct with
  | case1 ng ngs skip fc hskip =>
    intro w hw
    rw [nodegroup_comp.eq_def] at hw
    simp [hskip] at hw
  | case2 ng ngs skip fc hskip hmem =>
    intro w hw
    rw [nodegroup_comp.eq_def] at hw
    simp [hskip, hmem] at hw
  | case3 ng ngs skip fc hskip hmem hbad =>
    intro w hw
    rw [nodegroup_comp.eq_def] at hw
    rw [dif_neg hskip, dif_neg hmem, if_pos hbad] at hw
    simp at hw
  | case4 ng ngs skip fc hskip hmem hbad hcond IH =>
    intro w hw
    rw [nodegroup_comp.eq_def] at hw
    rw [dif_neg hskip, dif_neg hmem, if_neg hbad, if_pos hcond] at hw
    rcases mem_ngParenWrap hw with h | h | h
    · subst h; decide
    · rcases List.mem_flatMap.mp h with ⟨x, hx, hwx⟩
      by_cases hop : x ∈ opers
      · rw [if_pos hop] at hwx
        simp at hwx; subst hwx
        exact isNgWord_of_oper hop
      · rw [if_neg hop] at hwx
        by_cases hNg : isNgWord x = true
        · rw [if_pos hNg] at hwx
          exact IH x w hwx
        · rw [if_neg hNg] at hwx
          simp at hwx; subst hwx
          simpa using hNg
    · subst h; decide
  | case5 ng ngs skip fc hskip hmem hbad hcond =>
    intro w hw
    rw [nodegroup_comp.eq_def] at hw
    rw [dif_neg hskip, dif_neg hmem, if_neg hbad, if_neg hcond] at hw
    have hexp : (ngTokens ngs ng).any isNgWord = false := by
      cases h : (ngTokens ngs ng).any isNgWord
      · rfl
      · exact absurd (by simp [h]) hcond
    exact ngCompat_no_ngword hexp w hw

/-! ### The engine state

`St` packages the slice of `opts` that `CkMinions` reads together with the
external collaborators (key directory, data cache, `re`, `fnmatch`,
`ipaddress`/network helpers, `seco.range`, the SSH roster).  `δ` is the type
of cached attribute snapshots (the values `cache.fetch` returns). -/
structure St (δ : Type) where
  /-- `opts['id']`: the resolving node's own identifier. -/
  id : String
  /-- `opts['key_cache']` truthiness. -/
  key_cache : Bool
  /-- Content of the `.key_cache` file, `none` when the file does not exist.
  The file is written by an external collaborator; its content is arbitrary. -/
  key_cache_file : Option (List String)
  /-- `os.listdir` of the accepted-keys directory as (name, `os.path.isfile`)
  pairs; `none` models an `OSError`.  (`sorted_ignorecase` only reorders the
  listing and is irrelevant to the set-level claims.) -/
  pki_listing : Option (List (String × Bool))
  /-- `opts.get('minion_data_cache', False)`. -/
  minion_data_cache : Bool
  /-- `opts.get('__role') == 'minion'`. -/
  role_minion : Bool
  /-- `self.cache.list(category)` (e.g. `cache.list('grains')`). -/
  cacheList : String → List String
  /-- `self.cache.fetch(category, id)`; `none` models an absent entry. -/
  cacheFetch : String → String → Option δ
  /-- External `salt.utils.data.subdict_match(mdata, expr, delimiter,
  regex_match, exact_match)` (its module is not part of this source). -/
  subdict_match : δ → String → Char → Bool → Bool → Bool
  /-- External `re.compile` (patterns are compiled by the `re` library). -/
  reCompile : String → Regex
  /-- External `fnmatch` test of one name against a shell glob pattern. -/
  fnmatchTest : String → String → Bool
  /-- `opts['nodegroups']`. -/
  nodegroups : List (String × NgDef)
  /-- External `ipaddress` parse of an IP/CIDR target: `none` when the
  expression is neither an address nor a network; otherwise the induced
  per-grains match (protocol-list lookup plus address/subnet membership). -/
  ipcidrTest : String → Option (δ → Bool)
  /-- `HAS_RANGE`: whether `seco.range` could be imported. -/
  has_range : Bool
  /-- External `seco.range.Range(...).expand`; `none` models a
  `RangeException`. -/
  rangeExpand : String → Option MatchResult
  /-- `opts.get('enable_ssh_minions', False)`. -/
  enable_ssh_minions : Bool
  /-- External `salt.roster.Roster(...).targets(expr, tgt_type)`. -/
  rosterTargets : String → String → List String
  /-- `opts.get('auth.enable_expanded_auth_matching', False)`. -/
  expandedAuth : Bool

variable {δ : Type}

/-- `_pki_minions`: the known-identifier universe.  With `key_cache` set and
the cache file present the serialized list is returned as-is; otherwise the
node's own id followed by the plain files of the accepted-keys directory
(dotfiles skipped); an `OSError` while listing leaves just the own id. -/
def _pki_minions (st : St δ) : List String :=
  match st.key_cache, st.key_cache_file with
  | true, some cached => cached
  | _, _ =>
    match st.pki_listing with
    | none => [st.id]
    | some entries =>
      st.id :: (entries.filter (fun e => !(listPre ['.'] e.1.data) && e.2)).map Prod.fst

/-- `_all_minions`: all identifiers that have authenticated. -/
def _all_minions (st : St δ) : MatchResult :=
  ⟨_pki_minions st, []⟩

/-- `_check_glob_minions`: `fnmatch.filter(self._pki_minions(), expr)`. -/
def _check_glob_minions (st : St δ) (expr : String) (_greedy : Bool) : MatchResult :=
  ⟨(_pki_minions st).filter (fun m => st.fnmatchTest m expr), []⟩

/-- Worker for `splitOn`. -/
def splitOnAux (sep : Char) : List Char → List Char → List String
  | [], acc => [String.mk acc.reverse]
  | c :: cs, acc =>
    if c = sep then String.mk acc.reverse :: splitOnAux sep cs []
    else splitOnAux sep cs (c :: acc)

/-- Python `str.split(sep)` for a one-character separator (empty fields are
kept; the caller filters them). -/
def splitOn (s : String) (sep : Char) : List String :=
  splitOnAux sep s.data []

/-- `_check_list_minions`: a comma-separated name list; names that exist go
to `minions`, the others to `missing` (a string expression is split here;
sequence expressions do not occur on the embedded call paths). -/
def _check_list_minions (st : St δ) (expr : String) (_greedy : Bool) : MatchResult :=
  let exprL := (splitOn expr ',').filter (fun m => m ≠ "")
  let minions := _pki_minions st
  ⟨exprL.filter (fun x => x ∈ minions), exprL.filter (fun x => x ∉ minions)⟩

/-- `_check_pcre_minions`: keep the identifiers on which `re.match` of the
compiled expression is truthy (anchored at 0, prefix semantics). -/
def _check_pcre_minions (st : St δ) (expr : String) (_greedy : Bool) : MatchResult :=
  ⟨(_pki_minions st).filter (fun m => rmatch (st.reCompile expr) m.data), []⟩

/-- `list_cached_minions`: grains are used as the stand-in for the cached
minion list. -/
def list_cached_minions (st : St δ) : List String :=
  st.cacheList "grains"

/-- One iteration of the `for id_ in cminions` loop of
`_check_cache_minions` (the `continue`/`minions.remove` bookkeeping). -/
def cacheStep (st : St δ) (search_type expr : String) (delimiter : Char)
    (regex_match exact_match greedy : Bool)
    (acc : List String) (id_ : String) : List String :=
  if greedy ∧ id_ ∉ acc then acc
  else
    match st.cacheFetch search_type id_ with
    | none => if !greedy then pyRemove acc id_ else acc
    | some mdata =>
      if !(st.subdict_match mdata expr delimiter regex_match exact_match) then
        pyRemove acc id_
      else acc

/-- `_check_cache_minions`: the shared helper behind the grain/pillar
matchers.  Greedy search starts from the full known universe and only ever
removes identifiers that have cache data failing the match; strict search
starts from the cached identifiers and also removes those whose fetch comes
back empty. -/
def _check_cache_minions (st : St δ) (expr : String) (delimiter : Char)
    (greedy : Bool) (search_type : String)
    (regex_match : Bool := false) (exact_match : Bool := false) : MatchResult :=
  let minionsInit : Option (List String) :=
    if greedy then some (_pki_minions st)
    else if st.minion_data_cache then some (list_cached_minions st)
    else none
  match minionsInit with
  | none => ⟨[], []⟩
  | some minions0 =>
    if st.minion_data_cache then
      let cminions := if greedy then list_cached_minions st else minions0
      if cminions = [] then ⟨minions0, []⟩
      else
        ⟨cminions.foldl
          (cacheStep st search_type expr delimiter regex_match exact_match greedy)
          (pySet minions0), []⟩
    else ⟨minions0, []⟩

/-- `_check_grain_minions`. -/
def _check_grain_minions (st : St δ) (expr : String) (delimiter : Char)
    (greedy : Bool) : MatchResult :=
  _check_cache_minions st expr delimiter greedy "grains"

/-- `_check_grain_pcre_minions`. -/
def _check_grain_pcre_minions (st : St δ) (expr : String) (delimiter : Char)
    (greedy : Bool) : MatchResult :=
  _check_cache_minions st expr delimiter greedy "grains" true

/-- `_check_pillar_minions`. -/
def _check_pillar_minions (st : St δ) (expr : String) (delimiter : Char)
    (greedy : Bool) : MatchResult :=
  _check_cache_minions st expr delimiter greedy "pillar"

/-- `_check_pillar_pcre_minions`. -/
def _check_pillar_pcre_minions (st : St δ) (expr : String) (delimiter : Char)
    (greedy : Bool) : MatchResult :=
  _check_cache_minions st expr delimiter greedy "pillar" true

/-- `_check_pillar_exact_minions`. -/
def _check_pillar_exact_minions (st : St δ) (expr : String) (delimiter : Char)
    (greedy : Bool) : MatchResult :=
  _check_cache_minions st expr delimiter greedy "pillar" false true

/-- One iteration of the grains loop of `_check_ipcidr_minions`. -/
def ipStep (st : St δ) (test : δ → Bool) (greedy : Bool)
    (acc : List String) (id_ : String) : List String :=
  match st.cacheFetch "grains" id_ with
  | none => if !greedy then pyRemove acc id_ else acc
  | some grains =>
    if !(test grains) ∧ id_ ∈ acc then pyRemove acc id_ else acc

/-- `_check_ipcidr_minions`: parse the target as an address or network via
the external `ipaddress` collaborator (an unparsable target yields the empty
result) and drop cached identifiers whose grains do not carry a matching
address. -/
def _check_ipcidr_minions (st : St δ) (expr : String) (greedy : Bool) : MatchResult :=
  let minionsInit : Option (List String) :=
    if greedy then some (_pki_minions st)
    else if st.minion_data_cache then some (st.cacheList "grains")
    else none
  match minionsInit with
  | none => ⟨[], []⟩
  | some minions0 =>
    if st.minion_data_cache then
      let cminions := if greedy then st.cacheList "grains" else minions0
      match st.ipcidrTest expr with
      | none => ⟨[], []⟩
      | some test =>
        ⟨cminions.foldl (ipStep st test greedy) (pySet minions0), []⟩
    else ⟨minions0, []⟩

/-- `_check_range_minions`: raises `CommandExecutionError` when `seco.range`
is not importable; a `RangeException` from the resolver falls back to all
known (greedy) or all cached (strict) identifiers. -/
def _check_range_minions (st : St δ) (expr : String) (greedy : Bool) :
    Except String MatchResult :=
  if !st.has_range then
    Except.error "Range matcher unavailable (unable to import seco.range)"
  else
    match st.rangeExpand expr with
    | some res => Except.ok res
    | none =>
      if greedy then Except.ok (_all_minions st)
      else if st.minion_data_cache then Except.ok ⟨st.cacheList "grains", []⟩
      else Except.ok ⟨[], []⟩

/-! ### `_check_compound_minions`

The source assembles a textual Python expression over set literals and the
operators `&`, `|`, `-`, `(`, `)` in the list `results` and finally `eval`s
it.  The embedding keeps `results` as a token list and evaluates it with
Python's operator grammar (`|` binds loosest, then `&`, then the additive
`-`; all left-associative; a malformed stream is a `SyntaxError`, which the
source catches and turns into the empty result). -/

/-- A token of the assembled `results` stream. -/
inductive EvalTok where
  | setLit : List String → EvalTok
  | amp : EvalTok
  | pipe : EvalTok
  | minus : EvalTok
  | lparen : EvalTok
  | rparen : EvalTok
deriving DecidableEq

/-! The fuel-indexed recursive-descent evaluator for the `eval`ed set
expression; `none` models a `SyntaxError`/evaluation failure. -/
mutual

def evalOr : Nat → List EvalTok → Option (List String × List EvalTok)
  | 0, _ => none
  | f + 1, ts => do
    let (v, ts1) ← evalAnd f ts
    evalOrRest f v ts1

def evalOrRest : Nat → List String → List EvalTok →
    Option (List String × List EvalTok)
  | 0, _, _ => none
  | f + 1, v, ts =>
    match ts with
    | EvalTok.pipe :: ts2 => do
      let (v2, ts3) ← evalAnd f ts2
      evalOrRest f (pyUnion v v2) ts3
    | _ => some (v, ts)

def evalAnd : Nat → List EvalTok → Option (List String × List EvalTok)
  | 0, _ => none
  | f + 1, ts => do
    let (v, ts1) ← evalSub f ts
    evalAndRest f v ts1

def evalAndRest : Nat → List String → List EvalTok →
    Option (List String × List EvalTok)
  | 0, _, _ => none
  | f + 1, v, ts =>
    match ts with
    | EvalTok.amp :: ts2 => do
      let (v2, ts3) ← evalSub f ts2
      evalAndRest f (pyInter v v2) ts3
    | _ => some (v, ts)

def evalSub : Nat → List EvalTok → Option (List String × List EvalTok)
  | 0, _ => none
  | f + 1, ts => do
    let (v, ts1) ← evalAtom f ts
    evalSubRest f v ts1

def evalSubRest : Nat → List String → List EvalTok →
    Option (List String × List EvalTok)
  | 0, _, _ => none
  | f + 1, v, ts =>
    match ts with
    | EvalTok.minus :: ts2 => do
      let (v2, ts3) ← evalAtom f ts2
      evalSubRest f (pyDiff v v2) ts3
    | _ => some (v, ts)

def evalAtom : Nat → List EvalTok → Option (List String × List EvalTok)
  | 0, _ => none
  | f + 1, ts =>
    match ts with
    | EvalTok.setLit s :: ts2 => some (s, ts2)
    | EvalTok.lparen :: ts2 => do
      let (v, ts3) ← evalOr f ts2
      match ts3 with
      | EvalTok.rparen :: ts4 => some (v, ts4)
      | _ => none
    | _ => none

end

/-- `eval(' '.join(results))`: parse and evaluate the whole token stream;
any leftover input or parse failure is a `SyntaxError` (`none`). -/
def evalTokens (ts : List EvalTok) : Option (List String) :=
  match evalOr (4 * ts.length + 4) ts with
  | some (v, []) => some v
  | _ => none

/-- Number of words that the compound loop would treat as inline nodegroup
references (`parse_target` engine `N`). -/
def countN (words : List String) : Nat :=
  (words.filter (fun w => (parse_target w).engine = some 'N')).length

theorem countN_cons_of_ne {w : String} (l : List String)
    (h : ¬(parse_target w).engine = some 'N') : countN (w :: l) = countN l := by
  simp [countN, List.filter_cons, h]

theorem countN_cons_of_eq {w : String} (l : List String)
    (h : (parse_target w).engine = some 'N') :
    countN (w :: l) = countN l + 1 := by
  simp [countN, List.filter_cons, h]

theorem countN_append (a b : List String) :
    countN (a ++ b) = countN a + countN b := by
  simp [countN, List.filter_append]

theorem parseFallback_engine (w : String) : (parseFallback w).engine = none := by
  unfold parseFallback
  rcases patMatch w.data with _ | a <;> rfl

theorem patMatch_some_ne_nil {p a : List Char} (h : patMatch p = some a) :
    p ≠ [] := by
  intro hp
  subst hp
  simp [patMatch] at h

theorem parseNoDelim_engine {cs : List Char} {fb : TargetInfo} {x : Char}
    (hfb : fb.engine = none) (h : (parseNoDelim cs fb).engine = some x) :
    ∃ p a, cs = x :: '@' :: p ∧ patMatch p = some a := by
  unfold parseNoDelim at h
  split at h
  next c p =>
    split at h
    · rcases hp : patMatch p with _ | a <;> rw [hp] at h
      · rw [hfb] at h; simp at h
      · simp at h
        exact ⟨p, a, by rw [h], hp⟩
    · rw [hfb] at h; simp at h
  next => rw [hfb] at h; simp at h

theorem parse_target_engine_some {w : String} {x : Char}
    (h : (parse_target w).engine = some x) :
    x ∈ delimEngines ∨ ∃ p a, w.data = x :: '@' :: p ∧ patMatch p = some a := by
  unfold parse_target at h
  split at h
  next c d p heq =>
    split at h
    · next hcd =>
      rcases hp : patMatch p with _ | a <;> rw [hp] at h
      · exact Or.inr (parseNoDelim_engine (parseFallback_engine w) h)
      · simp at h
        exact Or.inl (h ▸ hcd.1)
    · exact Or.inr (parseNoDelim_engine (parseFallback_engine w) h)
  next => exact Or.inr (parseNoDelim_engine (parseFallback_engine w) h)

/-- A word the compound loop treats as a nodegroup reference is an `N@name`
word (so `nodegroup_comp` output, which contains none, splices no further
nodegroup references). -/
theorem parse_target_engine_N {w : String}
    (h : (parse_target w).engine = some 'N') : isNgWord w = true := by
  rcases parse_target_engine_some h with hd | ⟨p, a, hshape, hp⟩
  · simp [delimEngines] at hd
  · have hpne : p ≠ [] := patMatch_some_ne_nil hp
    rcases p with _ | ⟨q, qs⟩
    · exact absurd rfl hpne
    · simp [isNgWord, hshape]

theorem opers_engine_ne_N {w : String} (h : w ∈ opers) :
    ¬(parse_target w).engine = some 'N' := by
  simp [opers] at h
  rcases h with h | h | h | h | h <;> subst h <;> decide

/-- Nodegroup expansion splices no further nodegroup references into the
compound word stream. -/
theorem countN_ngcomp (ng : String) (ngs : List (String × NgDef))
    (skip : Finset String) (fc : Bool) :
    countN (nodegroup_comp ng ngs skip fc) = 0 := by
  simp only [countN, List.length_eq_zero, List.filter_eq_nil_iff]
  intro w hw h
  have hfalse := nodegroup_comp_no_ngword ng ngs skip fc w hw
  have htrue := parse_target_engine_N (by simpa using h)
  rw [hfalse] at htrue
  exact Bool.noConfusion htrue

/-- The `ref` engine table of `_check_compound_minions` (with the
`pillar_exact` override of `I`/`J`): dispatch one engine-prefixed leaf.
`R` maps to `_all_minions` inside a compound expression; `none` is the
"Unrecognized target engine" failure (unreachable for letters produced by
`parse_target` once `N` has been handled in-place). -/
def compoundLeaf (st : St δ) (pillar_exact : Bool) (e : Char) (pattern : String)
    (delimiter : Option Char) (greedy : Bool) : Option MatchResult :=
  match e with
  | 'G' => some (_check_grain_minions st pattern (delimiter.getD ':') greedy)
  | 'P' => some (_check_grain_pcre_minions st pattern (delimiter.getD ':') greedy)
  | 'I' => some ((if pillar_exact then _check_pillar_exact_minions
                  else _check_pillar_minions) st pattern (delimiter.getD ':') greedy)
  | 'J' => some ((if pillar_exact then _check_pillar_exact_minions
                  else _check_pillar_pcre_minions) st pattern (delimiter.getD ':') greedy)
  | 'L' => some (_check_list_minions st pattern greedy)
  | 'S' => some (_check_ipcidr_minions st pattern greedy)
  | 'E' => some (_check_pcre_minions st pattern greedy)
  | 'R' => some (_all_minions st)
  | _ => none

/-- The empty `{'minions': [], 'missing': []}` result. -/
def emptyResult : MatchResult := ⟨[], []⟩

/-- The `while words:` loop of `_check_compound_minions`.  `univ` is the
`minions` set captured at entry (used by `not`), `results` the token stream
built so far, `unmatched` the pending-group stack (top first; `'('` for an
explicit group, `'-'` for an implicit negation group), `missing` the
accumulated missing list.  A structural error returns the empty result
immediately; at the end of the stream a `')'` is appended for every pending
group and the assembled expression is evaluated (an evaluation failure is
the caught `Exception` and yields the empty result). -/
def compoundLoop (st : St δ) (greedy pillar_exact : Bool) (univ : List String)
    (words : List String) (results : List EvalTok) (unmatched : List Char)
    (missing : List String) : MatchResult :=
  match words with
  | [] =>
    match evalTokens (results ++ unmatched.map (fun _ => EvalTok.rparen)) with
    | some s => ⟨s, missing⟩
    | none => emptyResult
  | word :: rest =>
    if hop : word ∈ opers then
      if results ≠ [] then
        if results.getLast? = some EvalTok.lparen ∧ (word = "and" ∨ word = "or") then
          emptyResult
        else if word = "not" then
          let pre := if results.getLast? = some EvalTok.amp ∨
              results.getLast? = some EvalTok.pipe ∨
              results.getLast? = some EvalTok.lparen then results
            else results ++ [EvalTok.amp]
          compoundLoop st greedy pillar_exact univ rest
            (pre ++ [EvalTok.lparen, EvalTok.setLit univ, EvalTok.minus])
            ('-' :: unmatched) missing
        else if word = "and" then
          compoundLoop st greedy pillar_exact univ rest
            (results ++ [EvalTok.amp]) unmatched missing
        else if word = "or" then
          compoundLoop st greedy pillar_exact univ rest
            (results ++ [EvalTok.pipe]) unmatched missing
        else if word = "(" then
          compoundLoop st greedy pillar_exact univ rest
            (results ++ [EvalTok.lparen]) ('(' :: unmatched) missing
        else -- word = ")"
          match unmatched with
          | '(' :: unm2 =>
            match unm2 with
            | '-' :: unm3 =>
              compoundLoop st greedy pillar_exact univ rest
                (results ++ [EvalTok.rparen, EvalTok.rparen]) unm3 missing
            | _ =>
              compoundLoop st greedy pillar_exact univ rest
                (results ++ [EvalTok.rparen]) unm2 missing
          | _ => emptyResult
      else
        if word = "not" then
          compoundLoop st greedy pillar_exact univ rest
            [EvalTok.lparen, EvalTok.setLit univ, EvalTok.minus]
            ('-' :: unmatched) missing
        else if word = "(" then
          compoundLoop st greedy pillar_exact univ rest
            [EvalTok.lparen] ('(' :: unmatched) missing
        else emptyResult
    else if hN : (parse_target word).engine = some 'N' then
      let decomposed := nodegroup_comp (parse_target word).pattern st.nodegroups ∅ true
      if decomposed ≠ [] then
        compoundLoop st greedy pillar_exact univ (decomposed ++ rest)
          results unmatched missing
      else
        compoundLoop st greedy pillar_exact univ rest results unmatched missing
    else
      match (parse_target word).engine with
      | some e =>
        match compoundLeaf st pillar_exact e (parse_target word).pattern
            (parse_target word).delimiter greedy with
        | none => emptyResult
        | some res =>
          let results2 := results ++ [EvalTok.setLit (pySet res.minions)]
          let missing2 := missing ++ res.missing
          match unmatched with
          | '-' :: unm2 =>
            compoundLoop st greedy pillar_exact univ rest
              (results2 ++ [EvalTok.rparen]) unm2 missing2
          | _ =>
            compoundLoop st greedy pillar_exact univ rest results2 unmatched missing2
      | none =>
        let res := _check_glob_minions st word true
        let results2 := results ++ [EvalTok.setLit (pySet res.minions)]
        match unmatched with
        | '-' :: unm2 =>
          compoundLoop st greedy pillar_exact univ rest
            (results2 ++ [EvalTok.rparen]) unm2 missing
        | _ =>
          compoundLoop st greedy pillar_exact univ rest results2 unmatched missing
termination_by (countN words, words.length)
decreasing_by
  all_goals simp_wf
  all_goals first
    | (rw [countN_cons_of_ne rest (opers_engine_ne_N hop)]
       exact Prod.Lex.right _ (by simp))
    | (rw [countN_append, countN_ngcomp, countN_cons_of_eq rest hN]
       exact Prod.Lex.left _ _ (by omega))
    | (rw [countN_cons_of_eq rest hN]
       exact Prod.Lex.left _ _ (Nat.lt_succ_self _))
    | (rw [countN_cons_of_ne rest hN]
       exact Prod.Lex.right _ (by simp))

/-- The `expr` argument of `_check_compound_minions`: a raw string, an
already-tokenised sequence, or a value of any other type (rejected with
"Compound target that is neither string, list nor tuple"). -/
inductive CompoundIn where
  | str : String → CompoundIn
  | toks : List String → CompoundIn
  | invalid : CompoundIn
deriving DecidableEq

/-- The word stream of a compound expression: a raw string is
whitespace-tokenised, a sequence is shallow-copied. -/
def compoundWords : CompoundIn → List String
  | CompoundIn.str s => splitWs s
  | CompoundIn.toks l => l
  | CompoundIn.invalid => []

/-- `_check_compound_minions(expr, delimiter, greedy, pillar_exact)`.  The
`delimiter` parameter of the source is used only for logging, never for
matching (leaf delimiters come from each word's own parse), and is therefore
not a parameter of the embedding.  With the minion data cache disabled on a
non-minion role the whole matching block is skipped and every known minion
is returned. -/
def _check_compound_minions (st : St δ) (expr : CompoundIn)
    (greedy : Bool) (pillar_exact : Bool := false) : MatchResult :=
  if expr = CompoundIn.invalid then emptyResult
  else if st.minion_data_cache || st.role_minion then
    compoundLoop st greedy pillar_exact (pySet (_pki_minions st))
      (compoundWords expr) [] [] []
  else ⟨pySet (_pki_minions st), []⟩

/-- `_check_compound_pillar_exact_minions`: compound matching with pillar
glob matching disabled. -/
def _check_compound_pillar_exact_minions (st : St δ) (expr : CompoundIn)
    (greedy : Bool) : MatchResult :=
  _check_compound_minions st expr greedy true

/-- `_check_nodegroup_minions`: expand the nodegroup and evaluate the token
sequence as a compound expression. -/
def _check_nodegroup_minions (st : St δ) (expr : String) (greedy : Bool) :
    MatchResult :=
  _check_compound_minions st
    (CompoundIn.toks (nodegroup_comp expr st.nodegroups ∅ true)) greedy

/-- `check_minions(expr, tgt_type, delimiter, greedy)`: dispatch to
`_check_<tgt_type>_minions` via `getattr`.  Any exception — including the
`CommandExecutionError` of the range matcher and the `TypeError` from
calling the `None` produced by an unknown target type — is caught and turned
into the empty result.  With `enable_ssh_minions` the roster targets are
appended (the `ssh_minions` marker key is not modelled; no claim concerns
it). -/
def check_minions (st : St δ) (expr : String) (tgt_type : String)
    (delimiter : Char := ':') (greedy : Bool := true) : MatchResult :=
  let base : Option MatchResult :=
    match tgt_type with
    | "glob" => some (_check_glob_minions st expr greedy)
    | "list" => some (_check_list_minions st expr greedy)
    | "pcre" => some (_check_pcre_minions st expr greedy)
    | "grain" => some (_check_grain_minions st expr delimiter greedy)
    | "grain_pcre" => some (_check_grain_pcre_minions st expr delimiter greedy)
    | "pillar" => some (_check_pillar_minions st expr delimiter greedy)
    | "pillar_pcre" => some (_check_pillar_pcre_minions st expr delimiter greedy)
    | "pillar_exact" => some (_check_pillar_exact_minions st expr delimiter greedy)
    | "compound" => some (_check_compound_minions st (CompoundIn.str expr) greedy)
    | "compound_pillar_exact" =>
      some (_check_compound_pillar_exact_minions st (CompoundIn.str expr) greedy)
    | "ipcidr" => some (_check_ipcidr_minions st expr greedy)
    | "nodegroup" => some (_check_nodegroup_minions st expr greedy)
    | "range" =>
      match _check_range_minions st expr greedy with
      | Except.ok r => some r
      | Except.error _ => none
    | _ => none
  match base with
  | none => emptyResult
  | some res =>
    if st.enable_ssh_minions then
      let ssh := st.rosterTargets expr tgt_type
      if ssh ≠ [] then ⟨res.minions ++ ssh, res.missing⟩ else res
    else res

/-- The engine-letter-to-target-type table of `_expand_matching`.  `R` is
absent from the table (so a range-engined auth entry resolves through the
unknown type `None` and comes back empty), and `N` maps to `node`, a target
type for which no `_check_node_minions` method exists. -/
def expandRef : Option Char → Option String
  | some 'G' => some "grain"
  | some 'P' => some "grain_pcre"
  | some 'I' => some "pillar"
  | some 'J' => some "pillar_pcre"
  | some 'L' => some "list"
  | some 'S' => some "ipcidr"
  | some 'E' => some "pcre"
  | some 'N' => some "node"
  | none => some "compound"
  | _ => none

/-- `_expand_matching(auth_entry)`: parse the entry and resolve it with the
matcher its engine letter selects (the `v_matcher.getD "None"` mirrors
`'_check_{0}_minions'.format(None)`, which `check_minions` resolves to
nothing and hence to the empty result). -/
def _expand_matching (st : St δ) (auth_entry : String) : List String :=
  let ti := parse_target auth_entry
  pySet (check_minions st ti.pattern ((expandRef ti.engine).getD "None")).minions

/-- The deprecated `expr_form` argument overrides `tgt_type`. -/
def vtTargetType (tgt_type : String) (expr_form : Option String) : String :=
  match expr_form with
  | some f => f
  | none => tgt_type

/-- The `minions` set `validate_tgt` compares: the caller-supplied set, or
the resolution of `expr`. -/
def vtMinions (st : St δ) (expr tgt_type : String)
    (minions : Option (List String)) : List String :=
  match minions with
  | none => pySet (check_minions st expr tgt_type).minions
  | some l => pySet l

/-- `validate_tgt(valid, expr, tgt_type, minions, expr_form)`: is every
minion matched by `expr` inside the scope resolved from `valid`
(`d_bool = not bool(minions.difference(v_minions))`)?  The
`len(v_minions) == len(minions) and d_bool` early return is subsumed by the
final `return d_bool`. -/
def validate_tgt (st : St δ) (valid expr tgt_type : String)
    (minions : Option (List String) := none)
    (expr_form : Option String := none) : Bool :=
  if (_expand_matching st valid).length
        = (vtMinions st expr (vtTargetType tgt_type expr_form) minions).length
      ∧ pyDiff (vtMinions st expr (vtTargetType tgt_type expr_form) minions)
          (_expand_matching st valid) = [] then
    true
  else
    decide (pyDiff (vtMinions st expr (vtTargetType tgt_type expr_form) minions)
      (_expand_matching st valid) = [])

/-! ### The auth engine -/

/-- An argument value of a published call, abstracted to what the auth code
observes of it: its `six.text_type` stringification, plus — when the value
is a dict containing the `__kwarg__` marker — its entries (values also
stringified). -/
structure PyArg where
  text : String
  kwarg : Option (List (String × String))
deriving DecidableEq

/-- One element of the `{'args': [...], 'kwargs': {...}}` condition list of
`__args_check`: a non-dict element is skipped, a dict contributes positional
patterns (`none` = wildcard) and named patterns. -/
inductive ArgSpec where
  | notDict : ArgSpec
  | spec : List (Option String) → List (String × Option String) → ArgSpec
deriving DecidableEq

/-- One element of the permitted-function list of `__fun_check`: a plain
function-name pattern, a one-entry dict from a function-name pattern to an
argument-condition list, or anything else (skipped). -/
inductive FunCond where
  | str : String → FunCond
  | fdict : List (String × List ArgSpec) → FunCond
  | other : FunCond
deriving DecidableEq

/-- An entry of an `auth_list`: a bare function pattern (valid for every
minion) or a dict from a target scope expression to a permitted-function
list (a dict with more than one key is malformed and skipped). -/
inductive AuthEntry where
  | str : String → AuthEntry
  | adict : List (String × List FunCond) → AuthEntry
deriving DecidableEq

/-- `match_check(regex, fun)`: all functions of the (listified) `fun` must
`re.match` the pattern; an empty list — or a non-string pattern, for which
every `re.match` call raises and is caught — is falsy. -/
def match_check (st : St δ) (regex : FunCond) (funs : List String) : Bool :=
  match regex with
  | FunCond.str r => !funs.isEmpty && funs.all (fun f => rmatch (st.reCompile r) f.data)
  | _ => false

/-- The positional-argument part of `__args_check`: each pattern must have a
matching argument at its index (`none` accepts anything); exhausted
arguments fail. -/
def posCheck (st : St δ) : List (Option String) → List PyArg → Bool
  | [], _ => true
  | _ :: _, [] => false
  | none :: cs, _ :: as2 => posCheck st cs as2
  | some pat :: cs, a :: as2 =>
    rmatch (st.reCompile pat) a.text.data && posCheck st cs as2

/-- The keyword-argument part of `__args_check`. -/
def kwCheck (st : St δ) : List (String × Option String) →
    Option (List (String × String)) → Bool
  | [], _ => true
  | (k, v) :: cs, kwargs =>
    match kwargs with
    | none => false
    | some m =>
      match m.lookup k with
      | none => false
      | some actual =>
        (match v with
         | none => true
         | some pat => rmatch (st.reCompile pat) actual.data) && kwCheck st cs kwargs

/-- One condition of `__args_check`. -/
def argsCheckOne (st : St δ) (cond : ArgSpec) (args : Option (List PyArg))
    (kwargs : Option (List (String × String))) : Bool :=
  match cond with
  | ArgSpec.notDict => false
  | ArgSpec.spec cargs ckwargs =>
    posCheck st cargs (args.getD []) && kwCheck st ckwargs kwargs

/-- `__args_check(valid, args, kwargs)`: some condition dict accepts. -/
def args_check (st : St δ) (valid : List ArgSpec) (args : Option (List PyArg))
    (kwargs : Option (List (String × String))) : Bool :=
  valid.any (fun cond => argsCheckOne st cond args kwargs)

/-- `__fun_check(valid, fun, args, kwargs)`: some condition permits the
function (and, for dict conditions, its arguments). -/
def fun_check (st : St δ) (valid : List FunCond) (f : String)
    (args : Option (List PyArg)) (kwargs : Option (List (String × String))) : Bool :=
  valid.any (fun cond =>
    match cond with
    | FunCond.str s => match_check st (FunCond.str s) [f]
    | FunCond.fdict entries =>
      match entries with
      | [(fname, aspecs)] =>
        match_check st (FunCond.str fname) [f] && args_check st aspecs args kwargs
      | _ => false
    | FunCond.other => false)

/-- The kwargs split of `auth_check`: when the last argument is a dict
carrying `__kwarg__` it is peeled off as the keyword arguments. -/
def splitKwargs (fun_args : List PyArg) :
    List PyArg × Option (List (String × String)) :=
  match fun_args.getLast? with
  | some a =>
    match a.kwarg with
    | some m => (fun_args.dropLast, some m)
    | none => (fun_args, none)
  | none => (fun_args, none)

/-- The scan of one `auth_list` entry for one function of the batch
(the body of the `for ind in auth_list` loop of `auth_check`). -/
def authEntryCheck (st : St δ) (tgt tgt_type : String)
    (minions : Option (List String)) (f : String) (fun_args : List PyArg)
    (ind : AuthEntry) : Bool :=
  match ind with
  | AuthEntry.str s => match_check st (FunCond.str s) [f]
  | AuthEntry.adict entries =>
    match entries with
    | [(valid, conds)] =>
      if validate_tgt st valid tgt tgt_type minions then
        let (fargs, fkw) := splitKwargs fun_args
        fun_check st conds f (some fargs) fkw
      else false
    | _ => false

/-- One function of the batch: whitelisted, or permitted by some entry. -/
def authFunCheck (st : St δ) (auth_list : List AuthEntry)
    (whitelist : List String) (tgt tgt_type : String)
    (minions : Option (List String)) (f : String) (fun_args : List PyArg) : Bool :=
  (!whitelist.isEmpty && whitelist.contains f) ||
    auth_list.any (authEntryCheck st tgt tgt_type minions f fun_args)

/-- The `for num, fun in enumerate(funs)` loop of `auth_check`: the batch is
walked in lockstep with the argument tuples and the call returns `True` at
the *first* function any entry permits.  (With fewer argument tuples than
functions the source raises an uncaught `IndexError`; the embedding denies,
and the theorems below constrain the lengths to agree.) -/
def authLoop (st : St δ) (auth_list : List AuthEntry) (whitelist : List String)
    (tgt tgt_type : String) (minions : Option (List String)) :
    List String → List (List PyArg) → Bool
  | [], _ => false
  | _ :: _, [] => false
  | f :: fs, a :: as2 =>
    if authFunCheck st auth_list whitelist tgt tgt_type minions f a then true
    else authLoop st auth_list whitelist tgt tgt_type minions fs as2

/-- `str.lower()` (character-wise, as the ASCII target-type names need). -/
def strLower (s : String) : String := String.mk (s.data.map Char.toLower)

/-- The publish-validation coercion of the target type shared by
`auth_check` and `auth_check_expanded`. -/
def coerceTgt (tgt_type : String) : String :=
  if strLower tgt_type = "pillar" ∨ strLower tgt_type = "pillar_pcre" then
    "pillar_exact"
  else if strLower tgt_type = "compound" then "compound_pillar_exact"
  else tgt_type

/-- `minions.difference(v_minions)` is non-empty: the loosely resolved
target reaches minions outside its exact resolution. -/
def pvMismatch (st : St δ) (tgt tgt_type : String) : Bool :=
  decide (pyDiff (pySet (check_minions st tgt tgt_type).minions)
    (pySet (check_minions st tgt (coerceTgt tgt_type)).minions) ≠ [])

/-- The association-list extension used to build `auth_dictionary` in
`auth_check_expanded`. -/
def extendAssoc (d : List (String × List FunCond)) (k : String)
    (v : List FunCond) : List (String × List FunCond) :=
  if (d.lookup k).isSome then
    d.map (fun p => if p.1 = k then (p.1, p.2 ++ v) else p)
  else d ++ [(k, v)]

/-- `auth_dictionary`: minion id resolved from each scoped entry's key to
the concatenation of the permitted-function lists granted to it. -/
def expandedDict (st : St δ) (auth_list : List AuthEntry) :
    List (String × List FunCond) :=
  auth_list.foldl (fun d e =>
    match e with
    | AuthEntry.str _ => d
    | AuthEntry.adict [(key, conds)] =>
      (_expand_matching st key).foldl
        (fun d2 m => extendAssoc d2 m conds) d
    | AuthEntry.adict _ => d) []

/-- `auth_check_expanded`: the LDAP-oriented variant selected by
`auth.enable_expanded_auth_matching`.  The publish-validation prefix is the
same as in `auth_check`; afterwards a bare string entry matching any one
requested function grants everything, otherwise every targeted minion must
be granted by some scoped entry whose condition `match_check`es the whole
batch. -/
def auth_check_expanded (st : St δ) (auth_list : List AuthEntry)
    (funs : List String) (_args : List (List PyArg)) (tgt tgt_type : String)
    (_groups : Option (List String)) (publish_validate : Bool) : Bool :=
  let minionsL := pySet (check_minions st tgt tgt_type).minions
  if publish_validate ∧ pvMismatch st tgt tgt_type = true then false
  else if auth_list.any (fun e =>
      match e with
      | AuthEntry.str s => funs.any (fun f => match_check st (FunCond.str s) [f])
      | _ => false) then true
  else
    let allowed_minions : List String := auth_list.foldl (fun ks e =>
      match e with
      | AuthEntry.adict [(key, _)] => ks ++ [key]
      | _ => ks) []
    let authDict := expandedDict st auth_list
    let allowed_from := allowed_minions.foldl
      (fun s k => pyUnion s (_expand_matching st k)) []
    if pyDiff minionsL allowed_from ≠ [] then false
    else
      minionsL.all (fun m =>
        ((authDict.lookup m).getD []).any (fun cond => match_check st cond funs))

/-- `auth_check(auth_list, funs, args, tgt, tgt_type, groups,
publish_validate, minions, whitelist)`: the standard authorization check.
With `publish_validate`, a mismatch between the loose and the exact target
resolution denies before any entry is consulted; otherwise the batch loop
runs (with the loose resolution pinned as `minions` when publish-validation
was on). -/
def auth_check (st : St δ) (auth_list : List AuthEntry) (funs : List String)
    (args : List (List PyArg)) (tgt : String) (tgt_type : String := "glob")
    (groups : Option (List String) := none) (publish_validate : Bool := false)
    (minions : Option (List String) := none)
    (whitelist : List String := []) : Bool :=
  if st.expandedAuth then
    auth_check_expanded st auth_list funs args tgt tgt_type groups publish_validate
  else if publish_validate then
    if pvMismatch st tgt tgt_type then false
    else
      authLoop st auth_list whitelist tgt tgt_type
        (some (pySet (check_minions st tgt tgt_type).minions)) funs args
  else authLoop st auth_list whitelist tgt tgt_type minions funs args

/-! ### Example states

Concrete instances used by the counterexamples and witnesses below.  The
attribute-snapshot type is `String`; `subdict_match` is instantiated with a
simple prefix/equality collaborator and `re.compile`/`fnmatch` with
literal-pattern collaborators (all patterns exercised below are free of
metacharacters, except that `*`-suffixed globs are honoured). -/

def stEx : St String := {
  id := "master"
  key_cache := false
  key_cache_file := none
  pki_listing := some [("web1", true), ("web2", true), ("db1", true)]
  minion_data_cache := true
  role_minion := false
  cacheList := fun c => if c = "grains" then ["web1", "web2", "db1"] else []
  cacheFetch := fun c m =>
    if c = "grains" then
      if m = "web1" then some "os:Debian"
      else if m = "web2" then some "os:Ubuntu"
      else if m = "db1" then some "os:Debian"
      else none
    else if c = "pillar" then
      if m = "web1" then some "role:db"
      else if m = "web2" then some "role"
      else none
    else none
  subdict_match := fun d e _ _ exact => if exact then d == e else listPre e.data d.data
  reCompile := Regex.ofLit
  fnmatchTest := fun m p =>
    if listSub ['*'] p.data then listPre (p.data.dropLast) m.data else m == p
  nodegroups := [("g1", NgDef.str "web1 web2")]
  ipcidrTest := fun _ => none
  has_range := false
  rangeExpand := fun _ => none
  enable_ssh_minions := false
  rosterTargets := fun _ _ => []
  expandedAuth := false }

/-- A state on the key-cache fast path whose externally written cache file
does not list the node's own id. -/
def stKC : St Unit := {
  id := "master"
  key_cache := true
  key_cache_file := some ["web1"]
  pki_listing := some []
  minion_data_cache := false
  role_minion := false
  cacheList := fun _ => []
  cacheFetch := fun _ _ => none
  subdict_match := fun _ _ _ _ _ => false
  reCompile := Regex.ofLit
  fnmatchTest := fun _ _ => false
  nodegroups := []
  ipcidrTest := fun _ => none
  has_range := false
  rangeExpand := fun _ => none
  enable_ssh_minions := false
  rosterTargets := fun _ _ => []
  expandedAuth := false }

/-- The mutually recursive nodegroup definitions of the cycle example. -/
def ngsAB : List (String × NgDef) :=
  [("A", NgDef.str "N@B"), ("B", NgDef.str "N@A")]

/-! ### Supporting lemmas -/

theorem rmatch_iff {r : Regex} {cs : List Char} :
    rmatch r cs = true ↔ ∃ p q, cs = p ++ q ∧ r.acceptsAll p = true := by
  induction cs generalizing r with
  | nil =>
    constructor
    · intro h
      exact ⟨[], [], rfl, h⟩
    · rintro ⟨p, q, hpq, hacc⟩
      rcases List.append_eq_nil.mp hpq.symm with ⟨hp, -⟩
      subst hp
      exact hacc
  | cons c cs IH =>
    constructor
    · intro h
      have h2 : r.nullable = true ∨ rmatch (r.deriv c) cs = true := by
        simpa [rmatch] using h
      rcases h2 with h | h
      · exact ⟨[], c :: cs, rfl, h⟩
      · rcases IH.mp h with ⟨p, q, hpq, hacc⟩
        exact ⟨c :: p, q, by rw [hpq, List.cons_append], hacc⟩
    · rintro ⟨p, q, hpq, hacc⟩
      rcases p with _ | ⟨p0, ps⟩
      · simp only [List.nil_append] at hpq
        subst hpq
        simp [Regex.acceptsAll] at hacc
        simp [rmatch, hacc]
      · simp only [List.cons_append] at hpq
        injection hpq with hp0 hcs
        subst hp0
        simp only [rmatch, Bool.or_eq_true]
        exact Or.inr (IH.mpr ⟨ps, q, hcs, hacc⟩)
/-- The per-identifier removal condition of the `_check_cache_minions`
loop: an identifier visited by the loop is removed exactly when its fetch
comes back empty in strict mode, or its data fails `subdict_match`. -/
def cacheRemoves (st : St δ) (search_type expr : String) (delimiter : Char)
    (regex_match exact_match greedy : Bool) (id_ : String) : Bool :=
  match st.cacheFetch search_type id_ with
  | none => !greedy
  | some mdata => !(st.subdict_match mdata expr delimiter regex_match exact_match)

theorem pyRemove_eq_of_not_mem {acc : List String} {i : String}
    (h : i ∉ acc) : pyRemove acc i = acc := by
  unfold pyRemove
  apply List.filter_eq_self.mpr
  intro a ha
  simp only [decide_eq_true_eq]
  intro he
  exact h (he ▸ ha)

theorem cacheStep_eq (st : St δ) (search_type expr : String) (delimiter : Char)
    (rm em g : Bool) (acc : List String) (i : String) :
    cacheStep st search_type expr delimiter rm em g acc i =
      if cacheRemoves st search_type expr delimiter rm em g i then pyRemove acc i
      else acc := by
  unfold cacheStep cacheRemoves
  by_cases hg : g ∧ i ∉ acc
  · rw [if_pos hg]
    have herase : pyRemove acc i = acc := pyRemove_eq_of_not_mem hg.2
    rcases st.cacheFetch search_type i with _ | md
    · simp [hg.1, herase]
    · split <;> simp [herase]
  · rw [if_neg hg]
    rcases st.cacheFetch search_type i with _ | md
    · rfl
    · rfl

theorem mem_pyRemove {acc : List String} {i m : String} :
    m ∈ pyRemove acc i ↔ m ∈ acc ∧ m ≠ i := by
  simp [pyRemove]

theorem mem_foldl_cacheStep (st : St δ) (search_type expr : String)
    (delimiter : Char) (rm em g : Bool) :
    ∀ (l : List String) (s : List String) (m : String),
      m ∈ l.foldl (cacheStep st search_type expr delimiter rm em g) s ↔
        m ∈ s ∧ (m ∈ l → cacheRemoves st search_type expr delimiter rm em g m = false) := by
  intro l
  induction l with
  | nil => simp
  | cons a l IH =>
    intro s m
    rw [List.foldl_cons, IH, cacheStep_eq]
    by_cases hrem : cacheRemoves st search_type expr delimiter rm em g a = true
    · rw [if_pos hrem]
      constructor
      · rintro ⟨hm, hl⟩
        rcases mem_pyRemove.mp hm with ⟨hs, hne⟩
        refine ⟨hs, fun hmem => ?_⟩
        rcases List.mem_cons.mp hmem with h | h
        · exact absurd h hne
        · exact hl h
      · rintro ⟨hs, hcond⟩
        have hne : m ≠ a := by
          intro he
          have hfalse := hcond (by rw [he]; exact List.mem_cons_self a l)
          rw [he] at hfalse
          rw [hfalse] at hrem
          exact Bool.noConfusion hrem
        exact ⟨mem_pyRemove.mpr ⟨hs, hne⟩,
          fun h => hcond (List.mem_cons_of_mem a h)⟩
    · rw [if_neg hrem]
      constructor
      · rintro ⟨hs, hl⟩
        refine ⟨hs, fun hmem => ?_⟩
        rcases List.mem_cons.mp hmem with h | h
        · subst h
          simpa using hrem
        · exact hl h
      · rintro ⟨hs, hcond⟩
        exact ⟨hs, fun h => hcond (List.mem_cons_of_mem a h)⟩

/-- `validate_tgt` always returns the subset Boolean `d_bool` (the
equal-cardinality early return is subsumed). -/
theorem validate_tgt_eq (st : St δ) (valid expr tgt_type : String)
    (minions : Option (List String)) (expr_form : Option String) :
    validate_tgt st valid expr tgt_type minions expr_form =
      decide (pyDiff (vtMinions st expr (vtTargetType tgt_type expr_form) minions)
        (_expand_matching st valid) = []) := by
  unfold validate_tgt
  split
  · next hcond => simp [hcond.2]
  · rfl

/-- The batch loop of `auth_check` permits exactly when some
function/argument pair of the batch passes `authFunCheck`. -/
theorem authLoop_any (st : St δ) (auth_list : List AuthEntry)
    (whitelist : List String) (tgt tgt_type : String)
    (minions : Option (List String)) :
    ∀ (funs : List String) (args : List (List PyArg)),
      authLoop st auth_list whitelist tgt tgt_type minions funs args =
        (funs.zip args).any (fun p =>
          authFunCheck st auth_list whitelist tgt tgt_type minions p.1 p.2) := by
  intro funs
  induction funs with
  | nil => intro args; rfl
  | cons f fs IH =>
    intro args
    rcases args with _ | ⟨a, as2⟩
    · rfl
    · rw [List.zip_cons_cons, List.any_cons]
      show (if authFunCheck st auth_list whitelist tgt tgt_type minions f a then true
        else authLoop st auth_list whitelist tgt tgt_type minions fs as2) = _
      rw [IH as2]
      by_cases h : authFunCheck st auth_list whitelist tgt tgt_type minions f a = true
      · simp [h]
      · simp only [Bool.not_eq_true] at h
        simp [h]

theorem compoundLoop_leading_binary (st : St δ) (g pe : Bool) (univ : List String)
    (rest : List String) (unmatched : List Char) (missing : List String) {w : String}
    (hw : w = "and" ∨ w = "or" ∨ w = ")") :
    compoundLoop st g pe univ (w :: rest) [] unmatched missing = emptyResult := by
  rcases hw with h | h | h <;> subst h <;>
    · rw [compoundLoop.eq_def]
      dsimp only []
      rw [dif_pos (by decide), if_neg (by simp), if_neg (by decide),
        if_neg (by decide)]

theorem compoundLoop_binary_after_lparen (st : St δ) (g pe : Bool)
    (univ : List String) (rest : List String) (results : List EvalTok)
    (unmatched : List Char) (missing : List String) {w : String}
    (hw : w = "and" ∨ w = "or") (hres : results ≠ [])
    (hlast : results.getLast? = some EvalTok.lparen) :
    compoundLoop st g pe univ (w :: rest) results unmatched missing = emptyResult := by
  have hop : w ∈ opers := by rcases hw with h | h <;> subst h <;> decide
  rw [compoundLoop.eq_def]
  dsimp only []
  rw [dif_pos hop, if_pos hres, if_pos ⟨hlast, hw⟩]

theorem compoundLoop_unexpected_rparen (st : St δ) (g pe : Bool)
    (univ : List String) (rest : List String) (results : List EvalTok)
    (unmatched : List Char) (missing : List String)
    (hres : results ≠ []) (hunm : unmatched.head? ≠ some '(') :
    compoundLoop st g pe univ (")" :: rest) results unmatched missing = emptyResult := by
  rw [compoundLoop.eq_def]
  dsimp only []
  rw [dif_pos (by decide), if_pos hres, if_neg (by simp), if_neg (by decide),
    if_neg (by decide), if_neg (by decide), if_neg (by decide)]
  split
  · exact absurd rfl hunm
  · rfl

theorem compoundLoop_lparen_empty (st : St δ) (g pe : Bool) (univ : List String)
    (rest : List String) (unmatched : List Char) (missing : List String) :
    compoundLoop st g pe univ ("(" :: rest) [] unmatched missing =
      compoundLoop st g pe univ rest [EvalTok.lparen] ('(' :: unmatched) missing := by
  rw [compoundLoop.eq_def]
  dsimp only []
  rw [dif_pos (by decide), if_neg (by simp), if_neg (by decide), if_pos rfl]

theorem compoundLoop_glob_step (st : St δ) (g pe : Bool) (univ : List String)
    (rest : List String) (results : List EvalTok) (unmatched : List Char)
    (missing : List String) (w : String)
    (hop : w ∉ opers) (he : (parse_target w).engine = none)
    (hunm : unmatched.head? ≠ some '-') :
    compoundLoop st g pe univ (w :: rest) results unmatched missing =
      compoundLoop st g pe univ rest
        (results ++ [EvalTok.setLit (pySet (_check_glob_minions st w true).minions)])
        unmatched missing := by
  rw [compoundLoop.eq_def]
  dsimp only []
  rw [dif_neg hop, dif_neg (by simp [he]), he]
  split
  next e heq => exact absurd heq (by simp)
  next =>
    split
    · exact absurd rfl hunm
    · rfl

theorem pyDiff_eq_nil_iff {a b : List String} : pyDiff a b = [] ↔ a ⊆ b := by
  unfold pyDiff
  rw [List.filter_eq_nil_iff]
  constructor
  · intro h x hx
    have := h x hx
    simpa using this
  · intro h x hx
    simpa using h hx

theorem mem_pySet {l : List String} {m : String} : m ∈ pySet l ↔ m ∈ l := by
  simp [pySet]

theorem pySet_subset_iff {a b : List String} : pySet a ⊆ b ↔ a ⊆ b := by
  constructor
  · intro h x hx
    exact h (mem_pySet.mpr hx)
  · intro h x hx
    exact h (mem_pySet.mp hx)

/-- Greedy cache search: membership characterisation. -/
theorem mem_check_cache_greedy (st : St δ) (expr : String) (d : Char)
    (cat : String) (rm em : Bool) (m : String)
    (hc : st.minion_data_cache = true) :
    m ∈ (_check_cache_minions st expr d true cat rm em).minions ↔
      m ∈ _pki_minions st ∧
        (m ∈ list_cached_minions st →
          cacheRemoves st cat expr d rm em true m = false) := by
  unfold _check_cache_minions
  simp only [if_pos rfl, hc, if_true]
  by_cases hcm : list_cached_minions st = []
  · rw [if_pos hcm]
    simp [hcm]
  · rw [if_neg hcm]
    rw [show ((⟨(list_cached_minions st).foldl
        (cacheStep st cat expr d rm em true) (pySet (_pki_minions st)), []⟩ :
          MatchResult)).minions = (list_cached_minions st).foldl
        (cacheStep st cat expr d rm em true) (pySet (_pki_minions st)) from rfl]
    rw [mem_foldl_cacheStep]
    rw [mem_pySet]

/-- Strict cache search: membership characterisation. -/
theorem mem_check_cache_strict (st : St δ) (expr : String) (d : Char)
    (cat : String) (rm em : Bool) (m : String)
    (hc : st.minion_data_cache = true) :
    m ∈ (_check_cache_minions st expr d false cat rm em).minions ↔
      m ∈ list_cached_minions st ∧
        (m ∈ list_cached_minions st →
          cacheRemoves st cat expr d rm em false m = false) := by
  unfold _check_cache_minions
  simp only [Bool.false_eq_true, if_false, hc, if_true]
  by_cases hcm : list_cached_minions st = []
  · rw [if_pos hcm]
    simp [hcm]
  · rw [if_neg hcm]
    rw [show ((⟨(list_cached_minions st).foldl
        (cacheStep st cat expr d rm em false) (pySet (list_cached_minions st)), []⟩ :
          MatchResult)).minions = (list_cached_minions st).foldl
        (cacheStep st cat expr d rm em false) (pySet (list_cached_minions st)) from rfl]
    rw [mem_foldl_cacheStep]
    rw [mem_pySet]

theorem pvMismatch_of_not_subset (st : St δ) (tgt tgt_type : String)
    (h : ¬((check_minions st tgt tgt_type).minions ⊆
        pySet (check_minions st tgt (coerceTgt tgt_type)).minions)) :
    pvMismatch st tgt tgt_type = true := by
  unfold pvMismatch
  rw [decide_eq_true_iff]
  intro hdiff
  exact h (pySet_subset_iff.mp (pyDiff_eq_nil_iff.mp hdiff))

/-! ### Claims -/

/-- C1 (counterexample): `auth_check` does not deny a batch containing an
unauthorized function.  With the ACL `["test.ping"]` the single function
`cmd.run` is denied, yet the batch `[test.ping, cmd.run]` is permitted —
the loop returns `True` at the first permitted function without checking
the rest of the batch. -/
theorem c1_counterexample :
    auth_check stEx [AuthEntry.str "test.ping"] ["test.ping", "cmd.run"]
        [[], []] "web1" "glob" = true ∧
    auth_check stEx [AuthEntry.str "test.ping"] ["cmd.run"] [[]]
        "web1" "glob" = false := by
  exact ⟨by decide, by decide⟩

/-- C1 (amended): with expanded auth matching disabled and no
publish-validation, `auth_check` permits exactly when *some*
function/argument pair of the batch is permitted by the whitelist or by an
ACL entry — the batch is a disjunction, not a conjunction.  (The length
hypothesis reflects that the source indexes `args[num]` and would raise on
a shorter argument list.) -/
theorem c1_any_function_permits (st : St δ) (auth_list : List AuthEntry)
    (funs : List String) (args : List (List PyArg)) (tgt tgt_type : String)
    (whitelist : List String)
    (hexp : st.expandedAuth = false) (_hlen : funs.length = args.length) :
    auth_check st auth_list funs args tgt tgt_type none false none whitelist =
      (funs.zip args).any (fun p =>
        authFunCheck st auth_list whitelist tgt tgt_type none p.1 p.2) := by
  unfold auth_check
  rw [if_neg (by simp [hexp]), if_neg (by simp)]
  exact authLoop_any st auth_list whitelist tgt tgt_type none funs args

/-- C1 (witness). -/
theorem c1_witness :
    auth_check stEx [AuthEntry.str "test.ping"] ["test.ping", "cmd.run"]
        [[], []] "web1" "glob" none false none [] =
      ((["test.ping", "cmd.run"].zip [[], []]).any (fun p =>
        authFunCheck stEx [AuthEntry.str "test.ping"] [] "web1" "glob"
          none p.1 p.2)) :=
  c1_any_function_permits stEx [AuthEntry.str "test.ping"]
    ["test.ping", "cmd.run"] [[], []] "web1" "glob" [] rfl rfl

/-- C2: with `publish_validate`, whenever the exact resolution of the
target is a strict subset of its loose resolution, `auth_check` denies —
on both the standard and the expanded-matching paths, before any ACL entry
is consulted. -/
theorem c2_publish_validate_denies (st : St δ) (auth_list : List AuthEntry)
    (funs : List String) (args : List (List PyArg)) (tgt tgt_type : String)
    (groups : Option (List String)) (minions : Option (List String))
    (whitelist : List String)
    (_hsub : pySet (check_minions st tgt (coerceTgt tgt_type)).minions ⊆
        pySet (check_minions st tgt tgt_type).minions)
    (hne : ¬(pySet (check_minions st tgt tgt_type).minions ⊆
        pySet (check_minions st tgt (coerceTgt tgt_type)).minions)) :
    auth_check st auth_list funs args tgt tgt_type groups true minions
      whitelist = false := by
  have hpv : pvMismatch st tgt tgt_type = true := by
    apply pvMismatch_of_not_subset
    intro hsub2
    exact hne (pySet_subset_iff.mpr hsub2)
  unfold auth_check
  by_cases hexp : st.expandedAuth = true
  · rw [if_pos hexp]
    unfold auth_check_expanded
    rw [if_pos ⟨rfl, hpv⟩]
  · rw [if_neg hexp, if_pos rfl, if_pos hpv]

/-- C2 (witness): with pillar data in which substring matching reaches
`web1` but exact matching does not, publish-validation denies. -/
theorem c2_witness :
    auth_check stEx [] [] [] "role" "pillar" none true none [] = false :=
  c2_publish_validate_denies stEx [] [] [] "role" "pillar" none none []
    (by decide) (by decide)

/-- C3: `validate_tgt(valid, expr, tgt_type)` returns true exactly when
every minion resolved from `expr` under `tgt_type` lies inside the scope
resolved from `valid` (subset, equality included). -/
theorem c3_validate_tgt_iff_subset (st : St δ) (e2 e1 kind : String) :
    validate_tgt st e2 e1 kind none none = true ↔
      (check_minions st e1 kind).minions ⊆ _expand_matching st e2 := by
  rw [validate_tgt_eq, decide_eq_true_iff]
  show pyDiff (vtMinions st e1 (vtTargetType kind none) none)
      (_expand_matching st e2) = [] ↔ _
  rw [pyDiff_eq_nil_iff]
  show pySet (check_minions st e1 kind).minions ⊆ _ ↔ _
  exact pySet_subset_iff

/-- C4 (counterexample): with `seco.range` unavailable, resolving a range
target through `check_minions` returns the silently empty result rather
than surfacing a failure. -/
theorem c4_counterexample :
    stEx.has_range = false ∧
    check_minions stEx "cluster1" "range" = emptyResult := by
  exact ⟨rfl, by decide⟩

/-- C4 (amended): with the range resolver unavailable the leaf
`_check_range_minions` raises a hard `CommandExecutionError`, but
`check_minions` catches every exception and hands its caller the empty
`MatchResult`. -/
theorem c4_range_failure_swallowed (st : St δ) (expr : String) (d : Char)
    (g : Bool) (h : st.has_range = false) :
    (∃ msg, _check_range_minions st expr g = Except.error msg) ∧
    check_minions st expr "range" d g = emptyResult := by
  constructor
  · refine ⟨"Range matcher unavailable (unable to import seco.range)", ?_⟩
    unfold _check_range_minions
    rw [if_pos (by simp [h])]
  · unfold check_minions
    simp [_check_range_minions, h]

/-- C4 (witness). -/
theorem c4_witness :
    (∃ msg, _check_range_minions stEx "cluster1" true = Except.error msg) ∧
    check_minions stEx "cluster1" "range" ':' true = emptyResult :=
  c4_range_failure_swallowed stEx "cluster1" ':' true rfl

/-- C5 (counterexample): an unclosed `(` is not a structural error — the
loop auto-closes every pending group at end of input and evaluation
proceeds, so the unbalanced expression `( web1` resolves to `web1` instead
of the empty result the claim requires. -/
theorem c5_counterexample :
    _check_compound_minions stEx (CompoundIn.toks ["(", "web1"]) true false =
      ⟨["web1"], []⟩ := by
  unfold _check_compound_minions
  rw [if_neg (by decide), if_pos (by decide)]
  have hw : compoundWords (CompoundIn.toks ["(", "web1"]) = ["(", "web1"] := rfl
  rw [hw, compoundLoop_lparen_empty,
    compoundLoop_glob_step stEx true false (pySet (_pki_minions stEx)) []
      [EvalTok.lparen] ['('] [] "web1" (by decide) (by decide) (by decide),
    compoundLoop.eq_def]
  dsimp only []
  decide

/-- C5 (amended): under the data-cache gate (`minion_data_cache` or minion
role), a non-string/non-sequence expression, a leading binary operator (or
leading `)`), a binary operator immediately after `(` and an unexpected
right parenthesis each yield the empty `MatchResult` without an exception;
an unclosed `(` is instead auto-closed (see the counterexample), and
`parse_target` can produce no unknown engine letter. -/
theorem c5_structural_errors :
    (∀ {δ : Type} (st : St δ) (g pe : Bool),
      _check_compound_minions st CompoundIn.invalid g pe = emptyResult) ∧
    (∀ {δ : Type} (st : St δ) (g pe : Bool) (w : String) (rest : List String),
      (w = "and" ∨ w = "or" ∨ w = ")") →
      (st.minion_data_cache || st.role_minion) = true →
      _check_compound_minions st (CompoundIn.toks (w :: rest)) g pe = emptyResult) ∧
    (∀ {δ : Type} (st : St δ) (g pe : Bool) (univ : List String)
      (rest : List String) (results : List EvalTok) (unmatched : List Char)
      (missing : List String) (w : String),
      (w = "and" ∨ w = "or") → results ≠ [] →
      results.getLast? = some EvalTok.lparen →
      compoundLoop st g pe univ (w :: rest) results unmatched missing = emptyResult) ∧
    (∀ {δ : Type} (st : St δ) (g pe : Bool) (univ : List String)
      (rest : List String) (results : List EvalTok) (unmatched : List Char)
      (missing : List String),
      results ≠ [] → unmatched.head? ≠ some '(' →
      compoundLoop st g pe univ (")" :: rest) results unmatched missing = emptyResult) := by
  refine ⟨?_, ?_, ?_, ?_⟩
  · intro δ st g pe
    unfold _check_compound_minions
    rw [if_pos rfl]
  · intro δ st g pe w rest hw hgate
    unfold _check_compound_minions
    rw [if_neg (by simp), if_pos hgate]
    exact compoundLoop_leading_binary st g pe _ rest [] [] hw
  · intro δ st g pe univ rest results unmatched missing w hw hres hlast
    exact compoundLoop_binary_after_lparen st g pe univ rest results
      unmatched missing hw hres hlast
  · intro δ st g pe univ rest results unmatched missing hres hunm
    exact compoundLoop_unexpected_rparen st g pe univ rest results
      unmatched missing hres hunm

/-- C5 (witness). -/
theorem c5_witness :
    _check_compound_minions stEx (CompoundIn.toks ["and", "web1"]) true false
        = emptyResult ∧
    compoundLoop stEx true false ["web1"] ["or", "x"]
        [EvalTok.setLit ["web1"], EvalTok.lparen] [] [] = emptyResult ∧
    compoundLoop stEx true false ["web1"] [")"]
        [EvalTok.setLit ["web1"]] [] [] = emptyResult :=
  ⟨c5_structural_errors.2.1 stEx true false "and" ["web1"] (Or.inl rfl) (by decide),
   c5_structural_errors.2.2.1 stEx true false ["web1"] ["x"]
     [EvalTok.setLit ["web1"], EvalTok.lparen] [] [] "or" (Or.inr rfl)
     (by decide) (by decide),
   c5_structural_errors.2.2.2 stEx true false ["web1"] []
     [EvalTok.setLit ["web1"]] [] [] (by decide) (by decide)⟩

/-- C6: with the minion data cache enabled, the greedy attribute search
draws its candidates from the full known-identifier universe and *keeps*
identifiers with no cached snapshot, while the strict (non-greedy) search
draws only from the cached identifiers and *drops* those whose snapshot
fetch comes back empty. -/
theorem c6_cache_policy (st : St δ) (expr : String) (d : Char) (cat : String)
    (rm em : Bool) (m : String) (hc : st.minion_data_cache = true) :
    (m ∈ (_check_cache_minions st expr d true cat rm em).minions →
      m ∈ _pki_minions st) ∧
    (st.cacheFetch cat m = none →
      (m ∈ (_check_cache_minions st expr d true cat rm em).minions ↔
        m ∈ _pki_minions st)) ∧
    (m ∈ (_check_cache_minions st expr d false cat rm em).minions →
      m ∈ list_cached_minions st) ∧
    (st.cacheFetch cat m = none →
      m ∉ (_check_cache_minions st expr d false cat rm em).minions) := by
  refine ⟨?_, ?_, ?_, ?_⟩
  · intro hm
    exact ((mem_check_cache_greedy st expr d cat rm em m hc).mp hm).1
  · intro hfetch
    rw [mem_check_cache_greedy st expr d cat rm em m hc]
    constructor
    · exact fun h => h.1
    · intro hpki
      refine ⟨hpki, fun _ => ?_⟩
      unfold cacheRemoves
      rw [hfetch]
      rfl
  · intro hm
    exact ((mem_check_cache_strict st expr d cat rm em m hc).mp hm).1
  · intro hfetch hm
    rcases (mem_check_cache_strict st expr d cat rm em m hc).mp hm with ⟨hmem, hcond⟩
    have := hcond hmem
    unfold cacheRemoves at this
    rw [hfetch] at this
    exact Bool.noConfusion this

/-- C6 (witness): `master` has no cached grains in `stEx`: the greedy
search keeps it, the strict search drops it. -/
theorem c6_witness :
    ("master" ∈ (_check_cache_minions stEx "os:Debian" ':' true "grains").minions ↔
      "master" ∈ _pki_minions stEx) ∧
    "master" ∉ (_check_cache_minions stEx "os:Debian" ':' false "grains").minions :=
  ⟨(c6_cache_policy stEx "os:Debian" ':' "grains" false false "master" rfl).2.1
      (by decide),
   (c6_cache_policy stEx "os:Debian" ':' "grains" false false "master" rfl).2.2.2
      (by decide)⟩

/-- C7: nodegroup expansion is total (the definition below carries a
termination proof); a name already being expanded on the call chain is
skipped with the empty expansion, an unknown name yields the empty
expansion, and the mutually recursive pair `{A: "N@B", B: "N@A"}` expands
to the empty result. -/
theorem c7_nodegroup_guards :
    (∀ (ng : String) (ngs : List (String × NgDef)) (skip : Finset String)
      (fc : Bool), ng ∈ skip → nodegroup_comp ng ngs skip fc = []) ∧
    (∀ (ng : String) (ngs : List (String × NgDef)) (skip : Finset String)
      (fc : Bool), ng ∉ ngNames ngs → nodegroup_comp ng ngs skip fc = []) ∧
    nodegroup_comp "A" ngsAB ∅ true = [] := by
  refine ⟨?_, ?_, ?_⟩
  · intro ng ngs skip fc h
    rw [nodegroup_comp.eq_def, dif_pos h]
  · intro ng ngs skip fc h
    rw [nodegroup_comp.eq_def]
    by_cases hskip : ng ∈ skip
    · rw [dif_pos hskip]
    · rw [dif_neg hskip, dif_pos h]
  · have hA2 : nodegroup_comp "A" ngsAB (insert "B" (insert "A" ∅)) false = [] := by
      rw [nodegroup_comp.eq_def, dif_pos (by decide)]
    have hB : nodegroup_comp "B" ngsAB (insert "A" ∅) false = [] := by
      rw [nodegroup_comp.eq_def, dif_neg (by decide), dif_neg (by decide),
        if_neg (by decide), if_pos (by decide)]
      have ht : ngTokens ngsAB "B" = ["N@A"] := by decide
      rw [ht]
      simp only [List.flatMap_cons, List.flatMap_nil, List.append_nil]
      rw [if_neg (by decide), if_pos (by decide)]
      have hd : ("N@A".drop 2 : String) = "A" := by decide
      rw [hd, hA2]
      rfl
    rw [nodegroup_comp.eq_def, dif_neg (by decide), dif_neg (by decide),
      if_neg (by decide), if_pos (by decide)]
    have ht : ngTokens ngsAB "A" = ["N@B"] := by decide
    rw [ht]
    simp only [List.flatMap_cons, List.flatMap_nil, List.append_nil]
    rw [if_neg (by decide), if_pos (by decide)]
    have hd : ("N@B".drop 2 : String) = "B" := by decide
    rw [hd, hB]
    rfl

/-- C7 (witness). -/
theorem c7_witness :
    nodegroup_comp "A" ngsAB {"A"} true = [] ∧
    nodegroup_comp "nope" ngsAB ∅ false = [] :=
  ⟨c7_nodegroup_guards.1 "A" ngsAB {"A"} true (by decide),
   c7_nodegroup_guards.2.1 "nope" ngsAB ∅ false (by decide)⟩

/-- C8: an identifier is matched by the PCRE matcher exactly when it is a
known identifier and the compiled expression accepts some *prefix* of it
(anchored at position 0, not required to consume the whole identifier);
concretely, the pattern `web` matches the identifier `web1` even though
`web` does not accept the whole of `web1`. -/
theorem c8_pcre_prefix_semantics :
    (∀ {δ : Type} (st : St δ) (expr : String) (greedy : Bool) (m : String),
      m ∈ (_check_pcre_minions st expr greedy).minions ↔
        m ∈ _pki_minions st ∧
          ∃ p q, m.data = p ++ q ∧ (st.reCompile expr).acceptsAll p = true) ∧
    "web1" ∈ (_check_pcre_minions stEx "web" true).minions ∧
    (stEx.reCompile "web").acceptsAll "web1".data = false := by
  refine ⟨?_, by decide, by decide⟩
  intro δ st expr greedy m
  unfold _check_pcre_minions
  rw [show ((⟨(_pki_minions st).filter
      (fun m2 => rmatch (st.reCompile expr) m2.data), []⟩ :
      MatchResult)).minions = (_pki_minions st).filter
      (fun m2 => rmatch (st.reCompile expr) m2.data) from rfl]
  rw [List.mem_filter]
  constructor
  · rintro ⟨hm, hr⟩
    exact ⟨hm, rmatch_iff.mp hr⟩
  · rintro ⟨hm, hr⟩
    exact ⟨hm, rmatch_iff.mpr hr⟩

/-- The delimiterless branch of the target parser never sets a delimiter
(given that its fallback carries none). -/
theorem parseNoDelim_delim_none (cs : List Char) (fb : TargetInfo)
    (hfb : fb.delimiter = none) : (parseNoDelim cs fb).delimiter = none := by
  unfold parseNoDelim
  split
  next c p =>
    split
    · rcases hp : patMatch p with _ | a
      · exact hfb
      · rfl
    · exact hfb
  next => exact hfb

/-- The whole-input fallback of the target parser carries no delimiter. -/
theorem parseFallback_delim_none (s : String) :
    (parseFallback s).delimiter = none := by
  unfold parseFallback
  rcases patMatch s.data with _ | a <;> rfl

/-- Every parse either has no delimiter, or has both a delimiter and an
engine (only the delimiter branch of `TARGET_REX` can bind the group). -/
theorem parse_target_cases (s : String) :
    (parse_target s).delimiter = none ∨
      ((parse_target s).delimiter ≠ none ∧ (parse_target s).engine ≠ none) := by
  unfold parse_target
  split
  next c d p heq =>
    split
    · rcases hp : patMatch p with _ | a
      · exact Or.inl (parseNoDelim_delim_none _ _ (parseFallback_delim_none s))
      · exact Or.inr (by simp)
    · exact Or.inl (parseNoDelim_delim_none _ _ (parseFallback_delim_none s))
  next => exact Or.inl (parseNoDelim_delim_none _ _ (parseFallback_delim_none s))

/-- A parse whose engine group is unmatched also leaves the delimiter
group unmatched: the degenerate case is genuinely pattern-only. -/
theorem parse_target_delim_none_of_engine_none {s : String}
    (h : (parse_target s).engine = none) : (parse_target s).delimiter = none := by
  rcases parse_target_cases s with hd | ⟨-, he⟩
  · exact hd
  · exact absurd h he

/-- C9 (counterexample): parsing `G@os:Debian` leaves the delimiter group
unmatched (`None`); it is not the claimed `':'` (the default `:` is applied
later by consumers of the parse). -/
theorem c9_counterexample :
    (parse_target "G@os:Debian").delimiter ≠ some ':' := by decide

/-- C9 (amended): `parse_target` is total; `foo*` parses to the engineless
pattern `foo*`, and `G@os:Debian` parses to engine `G`, *unset* delimiter,
pattern `os:Debian`; moreover every engineless parse is pattern-only: its
delimiter is unset as well. -/
theorem c9_parse_results :
    parse_target "foo*" = ⟨none, none, "foo*"⟩ ∧
    parse_target "G@os:Debian" = ⟨some 'G', none, "os:Debian"⟩ ∧
    (∀ s : String, (parse_target s).engine = none →
      (parse_target s).delimiter = none) := by
  exact ⟨by decide, by decide, fun _ h => parse_target_delim_none_of_engine_none h⟩

/-- C9 (witness): the amended theorem evaluated at the concrete input
`foo*`, whose parse is engineless. -/
theorem c9_witness : (parse_target "foo*").delimiter = none :=
  c9_parse_results.2.2 "foo*" (by decide)

/-- C10 (counterexample): on the key-cache fast path `_pki_minions`
returns the externally written cache file verbatim, which need not contain
the node's own id. -/
theorem c10_counterexample :
    stKC.id = "master" ∧ "master" ∉ _pki_minions stKC := by
  exact ⟨rfl, by decide⟩

/-- C10 (amended): whenever the key-cache fast path is not taken
(`key_cache` unset or no cache file), the universe `_pki_minions` returns —
and hence `_all_minions` — contains the node's own identifier. -/
theorem c10_pki_contains_own_id (st : St δ)
    (h : st.key_cache = false ∨ st.key_cache_file = none) :
    st.id ∈ _pki_minions st ∧ st.id ∈ (_all_minions st).minions := by
  have hm : st.id ∈ _pki_minions st := by
    unfold _pki_minions
    rcases hkc : st.key_cache <;> rcases hkf : st.key_cache_file with _ | f <;>
      rcases hpl : st.pki_listing with _ | entries <;> simp_all
  exact ⟨hm, hm⟩

/-- C10 (witness). -/
theorem c10_witness :
    stEx.id ∈ _pki_minions stEx ∧ stEx.id ∈ (_all_minions stEx).minions :=
  c10_pki_contains_own_id stEx (Or.inl rfl)

end Salt

